import Mathlib

/-!
# Verification of the gocmd repository

Shallow embedding of the two core components of the repository:

* `linestream/stream.go` — the line-oriented streaming decoder
  (`LineStream`, `Write`, `SetLineBufferSize`, `ErrLineBufferOverflow`);
* `cmd.go` (package `gocmd`) — the process supervisor
  (`Cmd`, `New`, the option functions, the accessors, `Run`, `getExitCode`).

Bytes are modelled as `Char`, byte slices as `List Char`, Go strings as
`List Char`.  The decoder's internal buffer `rw.buf` (a `[]byte` of length
`bufSize`, zero-filled on allocation by `make`) is a `List Char` field,
together with the valid-prefix length `lastChar`.  The loop of
`LineStream.Write` is translated with an explicit fuel argument
(`writeLinesF`) so that the function is structurally recursive and hence
computable by the kernel; `writeLines` instantiates the fuel at
`p.length + 1`, which is always sufficient (proved in the fuel lemmas).
-/

namespace LS

/-- `DefaultLineBufferSize` from stream.go. -/
def DefaultLineBufferSize : Nat := 16384

/-- The `LineStream` struct of stream.go: `bufSize`, `buf` (the carry
buffer, a byte slice of length `bufSize`), and `lastChar`, the number of
valid carried-over bytes at the front of `buf`.  The `lineProcessor`
callback is modelled by returning the list of emitted lines from `write`. -/
structure LineStream where
  bufSize : Nat
  buf : List Char
  lastChar : Nat
deriving DecidableEq, Repr

/-- `New` from stream.go: default-sized, zero-filled buffer, `lastChar = 0`. -/
def LineStream.new : LineStream :=
  { bufSize := DefaultLineBufferSize
    buf := List.replicate DefaultLineBufferSize (Char.ofNat 0)
    lastChar := 0 }

/-- `SetLineBufferSize` from stream.go:
`rw.bufSize = n; rw.buf = make([]byte, rw.bufSize)`.
Note that the source does not touch `rw.lastChar`. -/
def LineStream.setLineBufferSize (rw : LineStream) (n : Nat) : LineStream :=
  { rw with bufSize := n, buf := List.replicate n (Char.ofNat 0) }

/-- `ErrLineBufferOverflow` from stream.go. -/
structure ErrLineBufferOverflow where
  line : List Char
  bufferSize : Nat
  bufferFree : Nat
deriving DecidableEq, Repr

/-- `bytes.IndexByte(l, '\n')`: index of the first newline, if any. -/
def idxOfNewline : List Char → Option Nat
  | [] => none
  | c :: cs => if c = '\n' then some 0 else (idxOfNewline cs).map (· + 1)

/-- The `LINES` loop of `LineStream.Write`, with explicit fuel to keep the
recursion structural.  Arguments mirror the Go state: `p` is the written
slice, `buf`/`lastChar` the carry buffer and its valid length, `i` the
current `firstCharPos`.  Returns the emitted lines (the successive
`rw.lineProcessor(line)` calls, in order), the value of `rw.lastChar` when
the loop exits, and the final `firstCharPos`.

Faithful to the source, the carriage-return test reads
`p[newlineOffset-1]`, i.e. the offset *relative to the current segment* is
used as an *absolute* index into `p` (stream.go line 89). -/
def writeLinesF (p buf : List Char) : Nat → Nat → Nat → List (List Char) × Nat × Nat
  | 0, lastChar, i => ([], lastChar, i)
  | fuel + 1, lastChar, i =>
    match idxOfNewline (p.drop i) with
    | none => ([], lastChar, i)
    | some newlineOffset =>
      let lineEnd :=
        if 0 < newlineOffset ∧ p.get? (newlineOffset - 1) = some '\r' then
          i + newlineOffset - 1
        else i + newlineOffset
      let line := buf.take lastChar ++ (p.take lineEnd).drop i
      let r := writeLinesF p buf fuel 0 (i + newlineOffset + 1)
      (line :: r.1, r.2.1, r.2.2)

/-- The loop with its canonical (always sufficient) fuel. -/
def writeLines (p buf : List Char) (lastChar i : Nat) :
    List (List Char) × Nat × Nat :=
  writeLinesF p buf (p.length + 1) lastChar i

/-- Result of one `Write` call: returned byte count `n`, returned error,
the decoder state after the call, and the lines handed to the processor. -/
structure WriteResult where
  n : Nat
  err : Option ErrLineBufferOverflow
  stream : LineStream
  emitted : List (List Char)
deriving DecidableEq, Repr

/-- `LineStream.Write` from stream.go.  After the `LINES` loop, if an
unterminated tail remains it is either copied into the carry buffer
(`copy(rw.buf[rw.lastChar:], p[firstCharPos:]); rw.lastChar += remain`) or,
if it exceeds the free space, reported as an `ErrLineBufferOverflow` with
`n = firstCharPos` and the buffer state left as the loop left it. -/
def LineStream.write (rw : LineStream) (p : List Char) : WriteResult :=
  let n := p.length
  let r := writeLines p rw.buf rw.lastChar 0
  let emitted := r.1
  let lastChar := r.2.1
  let firstCharPos := r.2.2
  if firstCharPos < n then
    let remain := (p.drop firstCharPos).length
    let bufFree := (rw.buf.drop lastChar).length
    if bufFree < remain then
      { n := firstCharPos
        err := some
          { line := rw.buf.take lastChar ++ p.drop firstCharPos
            bufferSize := rw.bufSize
            bufferFree := bufFree }
        stream := { rw with lastChar := lastChar }
        emitted := emitted }
    else
      { n := n
        err := none
        stream :=
          { rw with
            buf := rw.buf.take lastChar ++ p.drop firstCharPos
                     ++ rw.buf.drop (lastChar + remain)
            lastChar := lastChar + remain }
        emitted := emitted }
  else
    { n := n
      err := none
      stream := { rw with lastChar := lastChar }
      emitted := emitted }

/-- Concatenation of `\n`-terminated segments, used to state the
line-splitting property P1/P4 (claim C7). -/
def joinNl (segs : List (List Char)) : List Char :=
  (segs.map (· ++ ['\n'])).flatten

end LS

/-!
## Process supervisor (cmd.go, package gocmd)

The supervisor talks to the operating system (process start, `Wait`,
`syscall.Kill`) and to two concurrent event sources (the `done` channel and
`ctx.Done()`).  These environment responses are passed to the model of
`Run` as explicit inputs: whether the caller context has a deadline,
whether `cmd.Start()` succeeds, whether the `syscall.Kill` of the process
group succeeds, and which of the two `select` arms fires first (and, for
the context arm, why the context was cancelled; for the wait arm, the
`cmd.Wait()` error class).  All branching in `runModel` is a direct
translation of the branching in `Run` (cmd.go lines 219-272) and
`getExitCode` (cmd.go lines 274-281).
-/

namespace GC

/-- The configuration/result fields of `gocmd.Cmd` that the claims are
about.  `timeout` is a `time.Duration` (a signed 64-bit nanosecond count),
modelled as `Int`; `exitCode` is the `exitCode` field (zero default);
`executed` is the `Executed` flag; the three buffers hold captured output. -/
structure Cmd where
  command : String
  timeout : Int
  exitCode : Int
  executed : Bool
  stdoutBuf : String
  stderrBuf : String
  combinedBuf : String
deriving DecidableEq, Repr

/-- `gocmd.New`: default `Timeout` of `1 * time.Minute` (in nanoseconds),
then the option functions are applied in order. -/
def Cmd.new (cmd : String) (options : List (Cmd → Cmd)) : Cmd :=
  options.foldl (fun c o => o c)
    { command := cmd
      timeout := 60 * 1000000000
      exitCode := 0
      executed := false
      stdoutBuf := ""
      stderrBuf := ""
      combinedBuf := "" }

/-- `gocmd.WithTimeout`. -/
def withTimeout (t : Int) : Cmd → Cmd := fun c => { c with timeout := t }

/-- `checkExecuted` (cmd.go lines 210-216): the panic is modelled as the
error branch of an `Except`. -/
def Cmd.checkExecuted (c : Cmd) (property : String) : Except String Unit :=
  if c.executed then Except.ok ()
  else Except.error ("Can not read " ++ property ++ " if command was not Executed.")

/-- Accessor `Stdout`: the panic of `checkExecuted` propagates, otherwise
the buffered output is returned. -/
def Cmd.stdoutAcc (c : Cmd) : Except String String :=
  match c.checkExecuted "Stdout" with
  | Except.error e => Except.error e
  | Except.ok _ => Except.ok c.stdoutBuf

/-- Accessor `Stderr`. -/
def Cmd.stderrAcc (c : Cmd) : Except String String :=
  match c.checkExecuted "Stderr" with
  | Except.error e => Except.error e
  | Except.ok _ => Except.ok c.stderrBuf

/-- Accessor `Combined`. -/
def Cmd.combinedAcc (c : Cmd) : Except String String :=
  match c.checkExecuted "Combined" with
  | Except.error e => Except.error e
  | Except.ok _ => Except.ok c.combinedBuf

/-- Accessor `ExitCode`. -/
def Cmd.exitCodeAcc (c : Cmd) : Except String Int :=
  match c.checkExecuted "ExitCode" with
  | Except.error e => Except.error e
  | Except.ok _ => Except.ok c.exitCode

/-- Classification of the `cmd.Wait()` error: no error (exit status 0),
an `*exec.ExitError` carrying a `syscall.WaitStatus` with the given exit
status, or some other (non-exit-status) error. -/
inductive WaitResult
  | ok
  | exitError (status : Int)
  | otherError
deriving DecidableEq, Repr

/-- Why the caller-visible cancellation context became done: the caller
context's own deadline expired, the caller cancelled it explicitly, or the
internally derived `context.WithTimeout` timer fired.  The internal timer
exists only when the timeout sub-context was derived. -/
inductive CancelCause
  | callerDeadline
  | callerCancel
  | internalTimer
deriving DecidableEq, Repr

/-- The two context error values of Go's context package. -/
inductive CtxErr
  | canceled
  | deadlineExceeded
deriving DecidableEq, Repr

/-- The value `ctx.Err()` reports for each cancellation cause (Go:
deadline expiry gives `context.DeadlineExceeded`, explicit cancellation
gives `context.Canceled`). -/
def CancelCause.ctxErr : CancelCause → CtxErr
  | .callerDeadline => .deadlineExceeded
  | .callerCancel => .canceled
  | .internalTimer => .deadlineExceeded

/-- Which `select` arm fires first in `Run`: `<-ctx.Done()` (with the
reason the context was cancelled) or `<-done` (with the `Wait` error). -/
inductive RunEvent
  | ctxDone (cause : CancelCause)
  | waitDone (w : WaitResult)
deriving DecidableEq, Repr

/-- The errors `Run` can return. -/
inductive RunError
  | startError
  | killError (pid : Int)
  | timeoutAfter (d : Int)
  | ctxError (e : CtxErr)
deriving DecidableEq, Repr

/-- The condition of cmd.go lines 234-235:
`timeoutCtx := c.Timeout > 0 && !hasDeadline`. -/
def timeoutCtxOf (c : Cmd) (hasDeadline : Bool) : Bool :=
  (0 < c.timeout) && !hasDeadline

/-- `getExitCode` (cmd.go lines 274-281): only an `*exec.ExitError` with a
`syscall.WaitStatus` updates `exitCode`; everything else leaves it alone. -/
def Cmd.getExitCode (c : Cmd) (w : WaitResult) : Cmd :=
  match w with
  | .exitError status => { c with exitCode := status }
  | _ => c

/-- `Run` (cmd.go lines 219-272).  Returns the error `Run` returns
(`none` for the `nil` return) together with the supervisor state after the
call.  `hasDeadline` is `ctx.Deadline()`'s second result, `startOk`
whether `cmd.Start()` succeeds, `killOk` whether the `syscall.Kill` of the
process group succeeds, `pid` the child's process id, and `event` the
`select` arm that fires first. -/
def Cmd.runModel (c : Cmd) (hasDeadline startOk killOk : Bool) (pid : Int)
    (event : RunEvent) : Option RunError × Cmd :=
  let timeoutCtx := timeoutCtxOf c hasDeadline
  if !startOk then
    (some .startError, c)
  else
    -- `defer func() { c.Executed = true }()` runs before every later return
    let c := { c with executed := true }
    match event with
    | .ctxDone cause =>
      if !killOk then
        (some (.killError pid), c)
      else if timeoutCtx then
        (some (.timeoutAfter c.timeout), c)
      else
        (some (.ctxError cause.ctxErr), c)
    | .waitDone w =>
      (none, c.getExitCode w)

end GC

namespace LS

/-- A decoder whose capacity has been reconfigured to 8, as the Go tests do
with `New` followed by `SetLineBufferSize` (used for concrete scenarios). -/
def stream8 : LineStream := LineStream.new.setLineBufferSize 8

/-- A decoder whose capacity has been reconfigured to 16. -/
def stream16 : LineStream := LineStream.new.setLineBufferSize 16

end LS

/-!
## Lemmas about the decoder loop
-/

namespace LS

theorem idxOfNewline_lt {l : List Char} {k : Nat} (h : idxOfNewline l = some k) :
    k < l.length := by
  induction l generalizing k with
  | nil => simp [idxOfNewline] at h
  | cons c cs ih =>
    by_cases hc : c = '\n'
    · simp [idxOfNewline, hc] at h
      simp [List.length_cons]
      omega
    · simp only [idxOfNewline, if_neg hc, Option.map_eq_some'] at h
      obtain ⟨k', hk', rfl⟩ := h
      have := ih hk'
      simp [List.length_cons]
      omega

theorem idxOfNewline_eq_none {l : List Char} (h : '\n' ∉ l) :
    idxOfNewline l = none := by
  induction l with
  | nil => rfl
  | cons c cs ih =>
    simp only [List.mem_cons, not_or] at h
    have hc : ¬c = '\n' := fun hh => h.1 hh.symm
    simp [idxOfNewline, hc, ih h.2]

theorem idxOfNewline_append {s r : List Char} (h : '\n' ∉ s) :
    idxOfNewline (s ++ '\n' :: r) = some s.length := by
  induction s with
  | nil => simp [idxOfNewline]
  | cons c cs ih =>
    simp only [List.mem_cons, not_or] at h
    have hc : ¬c = '\n' := fun hh => h.1 hh.symm
    simp [idxOfNewline, hc, ih h.2]

theorem writeLinesF_irrel (p buf : List Char) :
    ∀ f1 f2 lc i, p.length - i < f1 → p.length - i < f2 →
      writeLinesF p buf f1 lc i = writeLinesF p buf f2 lc i := by
  intro f1
  induction f1 with
  | zero => intro f2 lc i h1 h2; omega
  | succ f1 ih =>
    intro f2 lc i h1 h2
    match f2, h2 with
    | f2 + 1, h2 =>
      cases h : idxOfNewline (p.drop i) with
      | none => simp [writeLinesF, h]
      | some off =>
        have hlt : off < p.length - i := by
          have := idxOfNewline_lt h
          simpa [List.length_drop] using this
        simp only [writeLinesF, h]
        rw [ih f2 0 (i + off + 1) (by omega) (by omega)]

theorem writeLines_none {p buf : List Char} {lc i : Nat}
    (h : idxOfNewline (p.drop i) = none) :
    writeLines p buf lc i = ([], lc, i) := by
  simp [writeLines, writeLinesF, h]

theorem writeLines_some {p buf : List Char} {lc i off : Nat}
    (h : idxOfNewline (p.drop i) = some off) :
    writeLines p buf lc i =
      ((buf.take lc ++
          (p.take (if 0 < off ∧ p.get? (off - 1) = some '\r'
            then i + off - 1 else i + off)).drop i)
          :: (writeLines p buf 0 (i + off + 1)).1,
        (writeLines p buf 0 (i + off + 1)).2.1,
        (writeLines p buf 0 (i + off + 1)).2.2) := by
  have hlt : off < p.length - i := by
    have := idxOfNewline_lt h
    simpa [List.length_drop] using this
  show writeLinesF p buf (p.length + 1) lc i = _
  simp only [writeLinesF, h]
  rw [writeLinesF_irrel p buf p.length (p.length + 1) 0 (i + off + 1)
    (by omega) (by omega)]
  rfl

theorem writeLines_shape (p : List Char) :
    ∀ (k i : Nat) (buf : List Char) (lc : Nat), p.length - i ≤ k →
      ((writeLines p buf lc i).2.1 =
          (if idxOfNewline (p.drop i) = none then lc else 0))
      ∧ ∀ (buf' : List Char) (lc' : Nat),
          (writeLines p buf lc i).2.2 = (writeLines p buf' lc' i).2.2 := by
  intro k
  induction k with
  | zero =>
    intro i buf lc hk
    have hd : p.drop i = [] := by
      apply List.drop_eq_nil_of_le
      omega
    have h : idxOfNewline (p.drop i) = none := by rw [hd]; rfl
    refine ⟨by simp [writeLines_none h, h], ?_⟩
    intro buf' lc'
    rw [writeLines_none h, writeLines_none h]
  | succ k ih =>
    intro i buf lc hk
    cases h : idxOfNewline (p.drop i) with
    | none =>
      refine ⟨by simp [writeLines_none h, h], ?_⟩
      intro buf' lc'
      rw [writeLines_none h, writeLines_none h]
    | some off =>
      have hlt : off < p.length - i := by
        have := idxOfNewline_lt h
        simpa [List.length_drop] using this
      constructor
      · rw [writeLines_some h]
        have := (ih (i + off + 1) buf 0 (by omega)).1
        simp only [this]
        split <;> simp [h]
      · intro buf' lc'
        rw [writeLines_some h, writeLines_some h]
        exact (ih (i + off + 1) buf 0 (by omega)).2 buf' 0

theorem writeLines_lc (p buf : List Char) (lc i : Nat) :
    (writeLines p buf lc i).2.1 =
      (if idxOfNewline (p.drop i) = none then lc else 0) :=
  (writeLines_shape p p.length i buf lc (by omega)).1

theorem writeLines_fcp_ext (p buf buf' : List Char) (lc lc' i : Nat) :
    (writeLines p buf lc i).2.2 = (writeLines p buf' lc' i).2.2 :=
  (writeLines_shape p p.length i buf lc (by omega)).2 buf' lc'

theorem writeLines_nil_iff (p buf : List Char) (lc i : Nat) :
    (writeLines p buf lc i).1 = [] ↔ idxOfNewline (p.drop i) = none := by
  cases h : idxOfNewline (p.drop i) with
  | none => simp [writeLines_none h]
  | some off => simp [writeLines_some h]

theorem writeLines_fcp_le (p buf : List Char) :
    ∀ (k i lc : Nat), p.length - i ≤ k → i ≤ p.length →
      (writeLines p buf lc i).2.2 ≤ p.length := by
  intro k
  induction k with
  | zero =>
    intro i lc hk hi
    have hd : p.drop i = [] := List.drop_eq_nil_of_le (by omega)
    have h : idxOfNewline (p.drop i) = none := by rw [hd]; rfl
    rw [writeLines_none h]
    exact hi
  | succ k ih =>
    intro i lc hk hi
    cases h : idxOfNewline (p.drop i) with
    | none => rw [writeLines_none h]; exact hi
    | some off =>
      have hlt : off < p.length - i := by
        have := idxOfNewline_lt h
        simpa [List.length_drop] using this
      rw [writeLines_some h]
      exact ih (i + off + 1) 0 (by omega) (by omega)

/-- All three branches of `write` return the loop's emitted lines. -/
theorem write_emitted (rw : LineStream) (p : List Char) :
    (rw.write p).emitted = (writeLines p rw.buf rw.lastChar 0).1 := by
  simp only [LineStream.write]
  split_ifs <;> rfl

/-- `write` never changes `bufSize`. -/
theorem write_bufSize (rw : LineStream) (p : List Char) :
    (rw.write p).stream.bufSize = rw.bufSize := by
  simp only [LineStream.write]
  split_ifs <;> rfl

/-- No character of `joinNl segs` is a carriage return when no segment
contains one. -/
theorem cr_not_mem_joinNl {segs : List (List Char)}
    (h : ∀ s ∈ segs, '\r' ∉ s) : '\r' ∉ joinNl segs := by
  simp only [joinNl, List.mem_flatten, List.mem_map, not_exists, not_and]
  rintro x ⟨s, hs, rfl⟩ hmem
  rcases List.mem_append.1 hmem with h1 | h1
  · exact h s hs h1
  · simp at h1

end LS

/-!
## Claim theorems — line decoder
-/

namespace LS

/-- C2 (code evaluation at the failing input): the decoder checks the byte
at the segment-relative offset `newlineOffset - 1` as an absolute index
into `p`, so a single `Write` of `"a\r\nbb\n"` emits `["a", "b"]` — the
final `b` of `"bb"` is wrongly stripped — instead of `["a", "bb"]`; and a
single `Write` of `"xy\na\r\n"` emits `["xy", "a\r"]`, failing to strip
the `\r` that directly precedes the second newline.  The CRLF example of
the claim, `"foo\r\nbar\r\n"`, happens to emit `["foo","bar"]` because
both segments have equal length. -/
theorem C2_crlf_stripping_bug :
    (stream8.write ['a', '\r', '\n', 'b', 'b', '\n']).emitted = [['a'], ['b']]
    ∧ [['a'], ['b']] ≠ [['a'], ['b', 'b']]
    ∧ (stream8.write ['x', 'y', '\n', 'a', '\r', '\n']).emitted =
        [['x', 'y'], ['a', '\r']]
    ∧ (stream8.write ['f', 'o', 'o', '\r', '\n', 'b', 'a', 'r', '\r', '\n']).emitted =
        [['f', 'o', 'o'], ['b', 'a', 'r']] := by decide

/-- C3 (counterexample): with capacity `C = 8`, writing
`"bc\n" + "A"*(C-3) + "zz"` leaves an unterminated tail of `C - 1 = 7`
bytes, which fits into the `C = 8` free bytes of the carry buffer, so the
write returns `(10, nil)` — not consumed-bytes 3 with an overflow error as
the claim states. -/
theorem C3_counterexample :
    (stream8.write (['b', 'c', '\n'] ++ (List.replicate 5 'A' ++ ['z', 'z']))).err = none
    ∧ (stream8.write (['b', 'c', '\n'] ++ (List.replicate 5 'A' ++ ['z', 'z']))).n = 10
    ∧ (10 : Nat) ≠ 3 := by decide

/-- C4 (counterexample): an overflowing `Write` that also completes a line
does NOT leave the carry buffer state as it was before the call: with
capacity 8, after `"foo\nbar"` buffers `"bar"` (`lastChar = 3`), writing
`"x\n" + "Y"*9` emits `"barx"`, resets `lastChar` to 0 inside the loop,
and then reports the overflow — so after the erroring write `lastChar` is
`0`, not the pre-write value `3`. -/
theorem C4_counterexample :
    (stream8.write ['f', 'o', 'o', '\n', 'b', 'a', 'r']).stream.lastChar = 3
    ∧ ((stream8.write ['f', 'o', 'o', '\n', 'b', 'a', 'r']).stream.write
        (['x', '\n'] ++ List.replicate 9 'Y')).err ≠ none
    ∧ ((stream8.write ['f', 'o', 'o', '\n', 'b', 'a', 'r']).stream.write
        (['x', '\n'] ++ List.replicate 9 'Y')).stream.lastChar = 0
    ∧ (0 : Nat) ≠ 3 := by decide

/-- C5 (counterexample): `SetLineBufferSize` does not reset `lastChar`.
After buffering two bytes (`lastChar = 2`), reconfiguring the capacity to 4
leaves `lastChar = 2`, and the decoder now "carries" two NUL bytes of the
fresh zero-filled buffer rather than holding no carried-over bytes. -/
theorem C5_counterexample :
    ((stream8.write ['a', 'b']).stream.setLineBufferSize 4).lastChar = 2
    ∧ ((stream8.write ['a', 'b']).stream.setLineBufferSize 4).buf.take
        ((stream8.write ['a', 'b']).stream.setLineBufferSize 4).lastChar
        = [Char.ofNat 0, Char.ofNat 0]
    ∧ (2 : Nat) ≠ 0 := by decide

end LS

namespace LS

/-- C5 (amended): `SetLineBufferSize n` sets the capacity to `n`,
reallocates the carry buffer to a fresh zero-filled buffer of length `n`,
and leaves `lastChar` unchanged; in the documented usage — calling it
before the first write, when `lastChar = 0` — the decoder holds no
carried-over bytes afterwards. -/
theorem C5_setLineBufferSize (rw : LineStream) (n : Nat) :
    (rw.setLineBufferSize n).bufSize = n
    ∧ (rw.setLineBufferSize n).buf = List.replicate n (Char.ofNat 0)
    ∧ (rw.setLineBufferSize n).lastChar = rw.lastChar
    ∧ (rw.lastChar = 0 →
        (rw.setLineBufferSize n).buf.take (rw.setLineBufferSize n).lastChar = []) := by
  refine ⟨rfl, rfl, rfl, fun h => ?_⟩
  simp [LineStream.setLineBufferSize, h]

/-- Witness for C5: instantiated at a decoder with `lastChar = 0`. -/
theorem C5_setLineBufferSize_witness :
    (stream8.setLineBufferSize 4).lastChar = stream8.lastChar
    ∧ (stream8.setLineBufferSize 4).buf.take (stream8.setLineBufferSize 4).lastChar = [] :=
  ⟨(C5_setLineBufferSize stream8 4).2.2.1,
    (C5_setLineBufferSize stream8 4).2.2.2 rfl⟩

/-- C3 (amended): for every capacity `C`, writing
`"bc\n" + "A"*(C-1) + "zz"` (unterminated tail of `C + 1` bytes, exceeding
the free space `C`) on a fresh decoder of capacity `C` returns
consumed-bytes 3, an overflow error reporting buffer size `C`, free space
`C` and the full unterminated tail as its line, after emitting `"bc"`;
the decoder remains usable: a subsequent `"foo\n"` write returns
`(4, nil)` and emits `"foo"`. -/
theorem C3_overflow_general (C : Nat) :
    ((LineStream.new.setLineBufferSize C).write
        (['b', 'c', '\n'] ++ (List.replicate (C - 1) 'A' ++ ['z', 'z']))).n = 3
    ∧ ((LineStream.new.setLineBufferSize C).write
        (['b', 'c', '\n'] ++ (List.replicate (C - 1) 'A' ++ ['z', 'z']))).err =
        some { line := List.replicate (C - 1) 'A' ++ ['z', 'z']
               bufferSize := C
               bufferFree := C }
    ∧ ((LineStream.new.setLineBufferSize C).write
        (['b', 'c', '\n'] ++ (List.replicate (C - 1) 'A' ++ ['z', 'z']))).emitted =
        [['b', 'c']]
    ∧ (((LineStream.new.setLineBufferSize C).write
        (['b', 'c', '\n'] ++ (List.replicate (C - 1) 'A' ++ ['z', 'z']))).stream.write
        ['f', 'o', 'o', '\n']).n = 4
    ∧ (((LineStream.new.setLineBufferSize C).write
        (['b', 'c', '\n'] ++ (List.replicate (C - 1) 'A' ++ ['z', 'z']))).stream.write
        ['f', 'o', 'o', '\n']).err = none
    ∧ (((LineStream.new.setLineBufferSize C).write
        (['b', 'c', '\n'] ++ (List.replicate (C - 1) 'A' ++ ['z', 'z']))).stream.write
        ['f', 'o', 'o', '\n']).emitted = [['f', 'o', 'o']] := by
  set s : LineStream := LineStream.new.setLineBufferSize C with hs
  set t : List Char := List.replicate (C - 1) 'A' ++ ['z', 'z'] with ht
  set p : List Char := ['b', 'c', '\n'] ++ t with hp
  have hsbuf : s.buf = List.replicate C (Char.ofNat 0) := rfl
  have hslc : s.lastChar = 0 := rfl
  have hnl : '\n' ∉ t := by
    intro h
    rcases List.mem_append.1 h with h1 | h1
    · exact absurd (List.eq_of_mem_replicate h1) (by decide)
    · exact absurd h1 (by decide)
  have htlen : t.length = (C - 1) + 2 := by
    simp [ht, List.length_append, List.length_replicate]
  have hplen : p.length = 3 + ((C - 1) + 2) := by
    simp [hp, List.length_append, htlen]
    omega
  have hidx : idxOfNewline (p.drop 0) = some 2 := by
    rw [List.drop_zero]
    have he : p = ['b', 'c'] ++ '\n' :: t := rfl
    rw [he]
    simpa using idxOfNewline_append (s := ['b', 'c']) (by decide)
  have hidx3 : idxOfNewline (p.drop 3) = none := by
    have he : p.drop 3 = t := rfl
    rw [he]
    exact idxOfNewline_eq_none hnl
  have hw : writeLines p s.buf s.lastChar 0 = ([['b', 'c']], 0, 3) := by
    rw [hslc, writeLines_some hidx, writeLines_none hidx3]
    have hcond : ¬(0 < 2 ∧ p.get? (2 - 1) = some '\r') := by
      intro hc
      have : p.get? 1 = some 'c' := rfl
      rw [this] at hc
      exact absurd hc.2 (by decide)
    rw [if_neg hcond]
    simp
    rfl
  have hbs : s.bufSize = C := rfl
  have hdrop3 : List.drop 3 p = t := rfl
  have hfree : (List.drop 0 s.buf).length = C := by
    rw [List.drop_zero, hsbuf, List.length_replicate]
  have hstream : ({ bufSize := s.bufSize, buf := s.buf, lastChar := 0 } : LineStream) = s := rfl
  have hkey : s.write p =
      { n := 3, err := some { line := t, bufferSize := C, bufferFree := C }
        stream := s, emitted := [['b', 'c']] } := by
    simp only [LineStream.write, hw]
    rw [if_pos (show (3 : Nat) < p.length by omega)]
    rw [if_pos (show (List.drop 0 s.buf).length < (List.drop 3 p).length by
      rw [hfree, hdrop3, htlen]; omega)]
    simp [hdrop3, hbs]
    exact ⟨by rw [hsbuf, List.length_replicate], rfl⟩
  have hidxf : idxOfNewline (List.drop 0 ['f', 'o', 'o', '\n']) = some 3 := by decide
  have hidxf4 : idxOfNewline (List.drop 4 ['f', 'o', 'o', '\n']) = none := by decide
  have hw2 : writeLines ['f', 'o', 'o', '\n'] s.buf s.lastChar 0 =
      ([['f', 'o', 'o']], 0, 4) := by
    rw [hslc, writeLines_some hidxf, writeLines_none hidxf4]
    rw [if_neg (show ¬(0 < 3 ∧ List.get? ['f', 'o', 'o', '\n'] (3 - 1) = some '\r') by decide)]
    simp
  have hkey2 : s.write ['f', 'o', 'o', '\n'] =
      { n := 4, err := none, stream := s, emitted := [['f', 'o', 'o']] } := by
    simp only [LineStream.write, hw2]
    rw [if_neg (show ¬((4 : Nat) < (['f', 'o', 'o', '\n'] : List Char).length) by decide)]
    simp [hstream]
  refine ⟨?_, ?_, ?_, ?_, ?_, ?_⟩ <;> rw [hkey] <;> rw [hkey2]

/-- `write` when the loop consumed everything (no unterminated tail). -/
theorem write_no_tail_spec (rw : LineStream) (p : List Char)
    (h1 : ¬ (writeLines p rw.buf rw.lastChar 0).2.2 < p.length) :
    rw.write p =
      { n := p.length
        err := none
        stream := { rw with lastChar := (writeLines p rw.buf rw.lastChar 0).2.1 }
        emitted := (writeLines p rw.buf rw.lastChar 0).1 } := by
  simp only [LineStream.write]
  rw [if_neg h1]

/-- `write` when the unterminated tail fits into the carry buffer. -/
theorem write_fits_spec (rw : LineStream) (p : List Char)
    (h1 : (writeLines p rw.buf rw.lastChar 0).2.2 < p.length)
    (h2 : ¬ (rw.buf.drop (writeLines p rw.buf rw.lastChar 0).2.1).length <
          (p.drop (writeLines p rw.buf rw.lastChar 0).2.2).length) :
    rw.write p =
      { n := p.length
        err := none
        stream :=
          { rw with
            buf := rw.buf.take (writeLines p rw.buf rw.lastChar 0).2.1 ++
                     p.drop (writeLines p rw.buf rw.lastChar 0).2.2 ++
                     rw.buf.drop ((writeLines p rw.buf rw.lastChar 0).2.1 +
                       (p.drop (writeLines p rw.buf rw.lastChar 0).2.2).length)
            lastChar := (writeLines p rw.buf rw.lastChar 0).2.1 +
                          (p.drop (writeLines p rw.buf rw.lastChar 0).2.2).length }
        emitted := (writeLines p rw.buf rw.lastChar 0).1 } := by
  simp only [LineStream.write]
  rw [if_pos h1, if_neg h2]

/-- `write` in the overflow case. -/
theorem write_overflow_spec (rw : LineStream) (p : List Char)
    (h1 : (writeLines p rw.buf rw.lastChar 0).2.2 < p.length)
    (h2 : (rw.buf.drop (writeLines p rw.buf rw.lastChar 0).2.1).length <
          (p.drop (writeLines p rw.buf rw.lastChar 0).2.2).length) :
    rw.write p =
      { n := (writeLines p rw.buf rw.lastChar 0).2.2
        err := some
          { line := rw.buf.take (writeLines p rw.buf rw.lastChar 0).2.1 ++
                      p.drop (writeLines p rw.buf rw.lastChar 0).2.2
            bufferSize := rw.bufSize
            bufferFree := (rw.buf.drop (writeLines p rw.buf rw.lastChar 0).2.1).length }
        stream := { rw with lastChar := (writeLines p rw.buf rw.lastChar 0).2.1 }
        emitted := (writeLines p rw.buf rw.lastChar 0).1 } := by
  simp only [LineStream.write]
  rw [if_pos h1, if_pos h2]

/-- C4 (amended): an erroring `Write` leaves the carry buffer bytes and
capacity untouched, and leaves `lastChar` with the value it had when the
scanning loop finished (reset to 0 if the same call emitted a line, the
pre-call value otherwise); consequently retrying the identical oversized
write yields the identical consumed count, the identical error, and the
identical final state.  Concretely (P6, capacity 8): `"foo\nbar"` emits
`"foo"`, buffers `"bar"`, and returns `(7, nil)`; a following write of 8
non-newline bytes returns consumed 0 and an overflow error with free space
`8 - 3 = 5` and line `"bar"` followed by the 8 bytes. -/
theorem C4_overflow_idempotent :
    (∀ (rw : LineStream) (p : List Char) (e : ErrLineBufferOverflow),
        (rw.write p).err = some e →
        (rw.write p).stream.bufSize = rw.bufSize
        ∧ (rw.write p).stream.buf = rw.buf
        ∧ ((rw.write p).stream.write p).n = (rw.write p).n
        ∧ ((rw.write p).stream.write p).err = some e
        ∧ ((rw.write p).stream.write p).stream = (rw.write p).stream)
    ∧ (stream8.write ['f', 'o', 'o', '\n', 'b', 'a', 'r']).emitted = [['f', 'o', 'o']]
    ∧ (stream8.write ['f', 'o', 'o', '\n', 'b', 'a', 'r']).n = 7
    ∧ (stream8.write ['f', 'o', 'o', '\n', 'b', 'a', 'r']).err = none
    ∧ ((stream8.write ['f', 'o', 'o', '\n', 'b', 'a', 'r']).stream.write
        (List.replicate 8 'X')).n = 0
    ∧ ((stream8.write ['f', 'o', 'o', '\n', 'b', 'a', 'r']).stream.write
        (List.replicate 8 'X')).err =
        some { line := ['b', 'a', 'r'] ++ List.replicate 8 'X'
               bufferSize := 8
               bufferFree := 5 } := by
  refine ⟨?_, by decide, by decide, by decide, by decide, by decide⟩
  intro rw p e h
  by_cases h1 : (writeLines p rw.buf rw.lastChar 0).2.2 < p.length
  case neg =>
    rw [write_no_tail_spec rw p h1] at h
    simp at h
  case pos =>
  by_cases h2 : (rw.buf.drop (writeLines p rw.buf rw.lastChar 0).2.1).length <
      (p.drop (writeLines p rw.buf rw.lastChar 0).2.2).length
  case neg =>
    rw [write_fits_spec rw p h1 h2] at h
    simp at h
  case pos =>
  have hkey := write_overflow_spec rw p h1 h2
  have he : e =
      { line := rw.buf.take (writeLines p rw.buf rw.lastChar 0).2.1 ++
          p.drop (writeLines p rw.buf rw.lastChar 0).2.2
        bufferSize := rw.bufSize
        bufferFree := (rw.buf.drop (writeLines p rw.buf rw.lastChar 0).2.1).length } := by
    rw [hkey] at h
    exact (Option.some.inj h).symm
  have hlc2 : (writeLines p rw.buf (writeLines p rw.buf rw.lastChar 0).2.1 0).2.1 =
      (writeLines p rw.buf rw.lastChar 0).2.1 := by
    have hn := writeLines_lc p rw.buf rw.lastChar 0
    have hm := writeLines_lc p rw.buf (writeLines p rw.buf rw.lastChar 0).2.1 0
    cases hx : idxOfNewline (p.drop 0) with
    | none => rw [hm, if_pos hx]
    | some k =>
      rw [hm, if_neg (by rw [hx]; simp)]
      rw [hn, if_neg (by rw [hx]; simp)]
  have hfcp2 : (writeLines p rw.buf (writeLines p rw.buf rw.lastChar 0).2.1 0).2.2 =
      (writeLines p rw.buf rw.lastChar 0).2.2 :=
    writeLines_fcp_ext p rw.buf rw.buf (writeLines p rw.buf rw.lastChar 0).2.1 rw.lastChar 0
  have hA : (writeLines p rw.buf (writeLines p rw.buf rw.lastChar 0).2.1 0).2.2 < p.length := by
    rw [hfcp2]; exact h1
  have hB : (rw.buf.drop (writeLines p rw.buf (writeLines p rw.buf rw.lastChar 0).2.1 0).2.1).length <
      (p.drop (writeLines p rw.buf (writeLines p rw.buf rw.lastChar 0).2.1 0).2.2).length := by
    rw [hlc2, hfcp2]; exact h2
  have hkey2 := write_overflow_spec
    { rw with lastChar := (writeLines p rw.buf rw.lastChar 0).2.1 } p hA hB
  refine ⟨by rw [hkey], by rw [hkey], ?_, ?_, ?_⟩
  · rw [hkey]
    show ((({ rw with lastChar := (writeLines p rw.buf rw.lastChar 0).2.1 } :
      LineStream).write p)).n = _
    rw [hkey2]
    exact hfcp2
  · rw [hkey]
    show ((({ rw with lastChar := (writeLines p rw.buf rw.lastChar 0).2.1 } :
      LineStream).write p)).err = _
    rw [hkey2, he]
    simp only [Option.some.injEq]
    rw [hlc2, hfcp2]
  · rw [hkey]
    show ((({ rw with lastChar := (writeLines p rw.buf rw.lastChar 0).2.1 } :
      LineStream).write p)).stream = _
    rw [hkey2]
    rw [hlc2]

/-- Witness for C4: the general part applied at the concrete P6 scenario. -/
theorem C4_overflow_idempotent_witness :
    (((stream8.write ['f', 'o', 'o', '\n', 'b', 'a', 'r']).stream.write
        (List.replicate 8 'X')).stream.write (List.replicate 8 'X')).err =
      some { line := ['b', 'a', 'r'] ++ List.replicate 8 'X'
             bufferSize := 8
             bufferFree := 5 } :=
  (C4_overflow_idempotent.1
    (stream8.write ['f', 'o', 'o', '\n', 'b', 'a', 'r']).stream
    (List.replicate 8 'X')
    { line := ['b', 'a', 'r'] ++ List.replicate 8 'X'
      bufferSize := 8
      bufferFree := 5 }
    (by decide)).2.2.2.1

end LS

namespace LS

/-- C6 (confirmed): (i) whenever the written slice contains a newline, the
first emitted line is the buffered carry-over content (`buf[0:lastChar]`)
followed by the newly scanned segment of `p` (up to the computed line
end); (ii) after a `Write` that emitted at least one line and did not
overflow, the carried-over bytes are exactly the unterminated tail of `p`
— the previous carry-over is gone (emission cleared it); (iii) concretely
(P2, capacity 16): writing `"foo"` three times emits nothing and returns
`(3, nil)` each time, and a fourth write `"bar\n"` returns `(4, nil)` and
emits exactly `"foofoofoobar"`. -/
theorem C6_carry_concat_and_clear :
    (∀ (rw : LineStream) (p : List Char) (off : Nat),
        idxOfNewline p = some off →
        (rw.write p).emitted.head? =
          some (rw.buf.take rw.lastChar ++
            p.take (if 0 < off ∧ p.get? (off - 1) = some '\r' then off - 1 else off)))
    ∧ (∀ (rw : LineStream) (p : List Char),
        (rw.write p).emitted ≠ [] → (rw.write p).err = none →
        (rw.write p).stream.buf.take (rw.write p).stream.lastChar =
          p.drop (writeLines p rw.buf rw.lastChar 0).2.2)
    ∧ (stream16.write ['f', 'o', 'o']).n = 3
    ∧ (stream16.write ['f', 'o', 'o']).err = none
    ∧ (stream16.write ['f', 'o', 'o']).emitted = []
    ∧ ((stream16.write ['f', 'o', 'o']).stream.write ['f', 'o', 'o']).n = 3
    ∧ ((stream16.write ['f', 'o', 'o']).stream.write ['f', 'o', 'o']).err = none
    ∧ ((stream16.write ['f', 'o', 'o']).stream.write ['f', 'o', 'o']).emitted = []
    ∧ (((stream16.write ['f', 'o', 'o']).stream.write ['f', 'o', 'o']).stream.write
        ['f', 'o', 'o']).n = 3
    ∧ (((stream16.write ['f', 'o', 'o']).stream.write ['f', 'o', 'o']).stream.write
        ['f', 'o', 'o']).err = none
    ∧ (((stream16.write ['f', 'o', 'o']).stream.write ['f', 'o', 'o']).stream.write
        ['f', 'o', 'o']).emitted = []
    ∧ ((((stream16.write ['f', 'o', 'o']).stream.write ['f', 'o', 'o']).stream.write
        ['f', 'o', 'o']).stream.write ['b', 'a', 'r', '\n']).n = 4
    ∧ ((((stream16.write ['f', 'o', 'o']).stream.write ['f', 'o', 'o']).stream.write
        ['f', 'o', 'o']).stream.write ['b', 'a', 'r', '\n']).err = none
    ∧ ((((stream16.write ['f', 'o', 'o']).stream.write ['f', 'o', 'o']).stream.write
        ['f', 'o', 'o']).stream.write ['b', 'a', 'r', '\n']).emitted =
        [['f', 'o', 'o', 'f', 'o', 'o', 'f', 'o', 'o', 'b', 'a', 'r']] := by
  refine ⟨?_, ?_, by decide, by decide, by decide, by decide, by decide, by decide,
    by decide, by decide, by decide, by decide, by decide, by decide⟩
  · intro rw p off h
    have h0 : idxOfNewline (p.drop 0) = some off := by rw [List.drop_zero]; exact h
    rw [write_emitted, writeLines_some h0]
    simp [Nat.zero_add]
  · intro rw p hne herr
    have hidx : ¬ idxOfNewline (p.drop 0) = none := by
      rw [write_emitted] at hne
      exact fun hn => hne ((writeLines_nil_iff p rw.buf rw.lastChar 0).2 hn)
    have hlc0 : (writeLines p rw.buf rw.lastChar 0).2.1 = 0 := by
      rw [writeLines_lc, if_neg hidx]
    by_cases h1 : (writeLines p rw.buf rw.lastChar 0).2.2 < p.length
    · by_cases h2 : (rw.buf.drop (writeLines p rw.buf rw.lastChar 0).2.1).length <
          (p.drop (writeLines p rw.buf rw.lastChar 0).2.2).length
      · rw [write_overflow_spec rw p h1 h2] at herr
        simp at herr
      · rw [write_fits_spec rw p h1 h2, hlc0]
        simp only [List.take_zero, List.nil_append, Nat.zero_add]
        exact List.take_left _ _
    · rw [write_no_tail_spec rw p h1, hlc0]
      have hle := writeLines_fcp_le p rw.buf p.length 0 rw.lastChar (by omega) (by omega)
      have hfe : (writeLines p rw.buf rw.lastChar 0).2.2 = p.length := by omega
      rw [hfe, List.drop_length]
      simp

/-- Witness for C6: both general parts applied at concrete inputs. -/
theorem C6_carry_concat_and_clear_witness :
    ((stream8.write ['a', '\n']).emitted.head? =
      some (stream8.buf.take stream8.lastChar ++
        ['a', '\n'].take
          (if 0 < 1 ∧ ['a', '\n'].get? (1 - 1) = some '\r' then 1 - 1 else 1)))
    ∧ ((stream8.write ['a', 'b', '\n', 'c']).stream.buf.take
          (stream8.write ['a', 'b', '\n', 'c']).stream.lastChar =
        ['a', 'b', '\n', 'c'].drop
          (writeLines ['a', 'b', '\n', 'c'] stream8.buf stream8.lastChar 0).2.2) :=
  ⟨C6_carry_concat_and_clear.1 stream8 ['a', '\n'] 1 (by decide),
    C6_carry_concat_and_clear.2.1 stream8 ['a', 'b', '\n', 'c'] (by decide) (by decide)⟩

end LS

namespace LS

/-- When the written slice is a concatenation of newline-terminated
segments (no `\r` anywhere, no `\n` inside a segment), the loop emits
exactly the segments, in order, and consumes everything. -/
theorem writeLines_joinNl :
    ∀ (segs : List (List Char)) (p buf : List Char) (i : Nat),
      '\r' ∉ p → (∀ s ∈ segs, '\n' ∉ s) → i ≤ p.length →
      p.drop i = joinNl segs →
      writeLines p buf 0 i = (segs, 0, p.length) := by
  intro segs
  induction segs with
  | nil =>
    intro p buf i hcr hnl hi hdrop
    have hd : p.drop i = [] := by rw [hdrop]; rfl
    have hidx : idxOfNewline (p.drop i) = none := by rw [hd]; rfl
    rw [writeLines_none hidx]
    have := List.drop_eq_nil_iff.1 hd
    have hieq : i = p.length := by omega
    rw [hieq]
  | cons s rest ih =>
    intro p buf i hcr hnl hi hdrop
    have hsplit : p.drop i = s ++ '\n' :: joinNl rest := by
      rw [hdrop]
      show (List.map (· ++ ['\n']) (s :: rest)).flatten = _
      simp [joinNl]
    have hidx : idxOfNewline (p.drop i) = some s.length := by
      rw [hsplit]
      exact idxOfNewline_append (hnl s (List.mem_cons_self s rest))
    have hlen : (p.drop i).length = s.length + 1 + (joinNl rest).length := by
      rw [hsplit]
      simp [List.length_append]
      omega
    have hplen : i + s.length + 1 ≤ p.length := by
      rw [List.length_drop] at hlen
      omega
    rw [writeLines_some hidx]
    have hcond : ¬(0 < s.length ∧ p.get? (s.length - 1) = some '\r') := by
      rintro ⟨-, hget⟩
      exact hcr (List.get?_mem hget)
    rw [if_neg hcond]
    have hseg : (p.take (i + s.length)).drop i = s := by
      rw [List.drop_take]
      have : i + s.length - i = s.length := by omega
      rw [this, hsplit, List.take_left]
    have hrec : writeLines p buf 0 (i + s.length + 1) = (rest, 0, p.length) := by
      apply ih p buf (i + s.length + 1) hcr
        (fun x hx => hnl x (List.mem_cons_of_mem s hx)) hplen
      have h1 : i + s.length + 1 = i + (s.length + 1) := by omega
      rw [h1, ← List.drop_drop (s.length + 1) i p, hsplit]
      have h2 : s ++ '\n' :: joinNl rest = (s ++ ['\n']) ++ joinNl rest := by simp
      have h3 : s.length + 1 = (s ++ ['\n']).length := by simp
      rw [h2, h3, List.drop_left]
    rw [hrec, hseg]
    simp

/-- C7 (confirmed): for every list of segments containing neither `\n` nor
`\r`, each fitting the carry buffer, a single `Write` of their
`\n`-terminated concatenation on a decoder holding no carried bytes emits
exactly the segments, in order (the callback is invoked once per segment,
blank segments preserved as empty lines), and returns `(len(p), nil)`.
Concretely: `"foo\n\nbar\n"` emits `["foo", "", "bar"]` and `"\n\n\n"`
emits `["", "", ""]` with return `(3, nil)`. -/
theorem C7_line_splitting :
    (∀ (segs : List (List Char)) (rw : LineStream),
        rw.lastChar = 0 →
        (∀ s ∈ segs, '\n' ∉ s ∧ '\r' ∉ s) →
        (∀ s ∈ segs, s.length ≤ rw.bufSize) →
        (rw.write (joinNl segs)).emitted = segs
        ∧ (rw.write (joinNl segs)).n = (joinNl segs).length
        ∧ (rw.write (joinNl segs)).err = none)
    ∧ (stream8.write ['f', 'o', 'o', '\n', '\n', 'b', 'a', 'r', '\n']).emitted =
        [['f', 'o', 'o'], [], ['b', 'a', 'r']]
    ∧ (stream8.write ['f', 'o', 'o', '\n', '\n', 'b', 'a', 'r', '\n']).n = 9
    ∧ (stream8.write ['f', 'o', 'o', '\n', '\n', 'b', 'a', 'r', '\n']).err = none
    ∧ (stream8.write ['\n', '\n', '\n']).emitted = [[], [], []]
    ∧ (stream8.write ['\n', '\n', '\n']).n = 3
    ∧ (stream8.write ['\n', '\n', '\n']).err = none := by
  refine ⟨?_, by decide, by decide, by decide, by decide, by decide, by decide⟩
  intro segs rw h0 hs hfit
  have hcr : '\r' ∉ joinNl segs := cr_not_mem_joinNl (fun s hx => (hs s hx).2)
  have hw : writeLines (joinNl segs) rw.buf rw.lastChar 0 =
      (segs, 0, (joinNl segs).length) := by
    rw [h0]
    exact writeLines_joinNl segs (joinNl segs) rw.buf 0 hcr
      (fun s hx => (hs s hx).1) (by omega) (List.drop_zero _)
  have hno : ¬ (writeLines (joinNl segs) rw.buf rw.lastChar 0).2.2 <
      (joinNl segs).length := by
    rw [hw]
    simp
  refine ⟨by rw [write_emitted, hw], ?_, ?_⟩
  · rw [write_no_tail_spec rw (joinNl segs) hno]
  · rw [write_no_tail_spec rw (joinNl segs) hno]

/-- Witness for C7: the general part applied at two concrete segments. -/
theorem C7_line_splitting_witness :
    (stream8.write (joinNl [['f', 'o'], []])).emitted = [['f', 'o'], []]
    ∧ (stream8.write (joinNl [['f', 'o'], []])).n = (joinNl [['f', 'o'], []]).length
    ∧ (stream8.write (joinNl [['f', 'o'], []])).err = none :=
  C7_line_splitting.1 [['f', 'o'], []] stream8 rfl (by decide) (by decide)

end LS

/-!
## Claim theorems — process supervisor
-/

namespace GC

/-- C1 (counterexample): a caller whose context has no deadline and who
cancels explicitly while the default 1-minute timeout context is derived
receives the "timeout after 1m0s" error, not its own context's
`Canceled` error value — `Run` cannot distinguish the two origins once
the timeout sub-context has been derived. -/
theorem C1_counterexample :
    ((Cmd.new "sleep" []).runModel false true true 1
        (RunEvent.ctxDone CancelCause.callerCancel)).1 =
      some (RunError.timeoutAfter 60000000000)
    ∧ some (RunError.timeoutAfter 60000000000) ≠
        some (RunError.ctxError CancelCause.callerCancel.ctxErr) := by
  exact ⟨rfl, by decide⟩

/-- C1 (amended): when the cancellation context fires before the child
completes (and the group signal succeeds), `Run` reports "timeout after
`<duration>`" exactly when the internal timeout context was derived
(caller context without deadline and positive configured timeout) — even
if what actually fired was the caller's own explicit cancellation — and
otherwise returns the caller context's error value unchanged; a
caller-supplied deadline therefore always takes precedence over the
configured timeout. -/
theorem C1_cancellation_reporting (c : Cmd) (hd : Bool) (pid : Int)
    (cause : CancelCause) :
    (timeoutCtxOf c hd = true →
      (c.runModel hd true true pid (RunEvent.ctxDone cause)).1 =
        some (RunError.timeoutAfter c.timeout))
    ∧ (timeoutCtxOf c hd = false →
      (c.runModel hd true true pid (RunEvent.ctxDone cause)).1 =
        some (RunError.ctxError cause.ctxErr))
    ∧ (hd = true →
      (c.runModel hd true true pid (RunEvent.ctxDone cause)).1 =
        some (RunError.ctxError cause.ctxErr)) := by
  refine ⟨fun h => ?_, fun h => ?_, fun h => ?_⟩
  · simp [Cmd.runModel, h]
  · simp [Cmd.runModel, h]
  · simp [Cmd.runModel, timeoutCtxOf, h]

/-- Witness for C1 (amended): the derived-timeout case at the default
1-minute timeout, and the caller-deadline case. -/
theorem C1_cancellation_reporting_witness :
    ((Cmd.new "x" []).runModel false true true 0
        (RunEvent.ctxDone CancelCause.internalTimer)).1 =
      some (RunError.timeoutAfter (Cmd.new "x" []).timeout)
    ∧ ((Cmd.new "x" []).runModel true true true 0
        (RunEvent.ctxDone CancelCause.callerDeadline)).1 =
      some (RunError.ctxError CancelCause.callerDeadline.ctxErr) :=
  ⟨(C1_cancellation_reporting (Cmd.new "x" []) false 0 CancelCause.internalTimer).1 rfl,
    (C1_cancellation_reporting (Cmd.new "x" []) true 0 CancelCause.callerDeadline).2.2 rfl⟩

/-- C8 (confirmed): when the child completes naturally (the wait arm wins
the race), `Run` returns `nil` whatever the exit status; an
`*exec.ExitError` with status 120 makes `ExitCode()` return 120 with
`Executed = true`, while a zero exit or a non-exit-status wait error
leaves the exit code at its zero default. -/
theorem C8_exit_code_capture (c : Cmd) (hd killOk : Bool) (pid : Int)
    (w : WaitResult) :
    (c.runModel hd true killOk pid (RunEvent.waitDone w)).1 = none
    ∧ (c.runModel hd true killOk pid (RunEvent.waitDone w)).2.executed = true
    ∧ (c.runModel hd true killOk pid
        (RunEvent.waitDone (WaitResult.exitError 120))).2.exitCodeAcc = Except.ok 120
    ∧ (c.exitCode = 0 →
        (c.runModel hd true killOk pid
          (RunEvent.waitDone WaitResult.ok)).2.exitCodeAcc = Except.ok 0
        ∧ (c.runModel hd true killOk pid
          (RunEvent.waitDone WaitResult.otherError)).2.exitCodeAcc = Except.ok 0) := by
  refine ⟨?_, ?_, ?_, fun h => ⟨?_, ?_⟩⟩
  · simp [Cmd.runModel]
  · simp [Cmd.runModel, Cmd.getExitCode]
    cases w <;> rfl
  · simp [Cmd.runModel, Cmd.getExitCode, Cmd.exitCodeAcc, Cmd.checkExecuted]
  · simp [Cmd.runModel, Cmd.getExitCode, Cmd.exitCodeAcc, Cmd.checkExecuted, h]
  · simp [Cmd.runModel, Cmd.getExitCode, Cmd.exitCodeAcc, Cmd.checkExecuted, h]

/-- Witness for C8: instantiated at a freshly constructed command (whose
exit-code field is at its zero default). -/
theorem C8_exit_code_capture_witness :
    ((Cmd.new "x" []).runModel false true true 0
      (RunEvent.waitDone WaitResult.ok)).2.exitCodeAcc = Except.ok 0
    ∧ ((Cmd.new "x" []).runModel false true true 0
      (RunEvent.waitDone WaitResult.otherError)).2.exitCodeAcc = Except.ok 0 :=
  (C8_exit_code_capture (Cmd.new "x" []) false true 0 WaitResult.ok).2.2.2 rfl

/-- C9 (confirmed): all four result accessors fail loudly (the modelled
panic) while `Executed` is false; `Run` marks `Executed = true` before
returning in every outcome that passed process start, and returns the
start error with `Executed` untouched when start fails. -/
theorem C9_accessor_guard :
    (∀ c : Cmd, c.executed = false →
      c.stdoutAcc = Except.error "Can not read Stdout if command was not Executed."
      ∧ c.stderrAcc = Except.error "Can not read Stderr if command was not Executed."
      ∧ c.combinedAcc = Except.error "Can not read Combined if command was not Executed."
      ∧ c.exitCodeAcc = Except.error "Can not read ExitCode if command was not Executed.")
    ∧ (∀ (c : Cmd) (hd killOk : Bool) (pid : Int) (ev : RunEvent),
        c.runModel hd false killOk pid ev = (some RunError.startError, c)
        ∧ (c.runModel hd true killOk pid ev).2.executed = true) := by
  constructor
  · intro c h
    refine ⟨?_, ?_, ?_, ?_⟩ <;>
      simp [Cmd.stdoutAcc, Cmd.stderrAcc, Cmd.combinedAcc, Cmd.exitCodeAcc,
        Cmd.checkExecuted, h]
  · intro c hd killOk pid ev
    constructor
    · simp [Cmd.runModel]
    · cases ev with
      | ctxDone cause =>
        cases killOk
        · simp [Cmd.runModel]
        · simp [Cmd.runModel]
          split_ifs <;> rfl
      | waitDone w =>
        cases w <;> simp [Cmd.runModel, Cmd.getExitCode]

/-- Witness for C9: a fresh, unrun command. -/
theorem C9_accessor_guard_witness :
    (Cmd.new "x" []).stdoutAcc =
      Except.error "Can not read Stdout if command was not Executed."
    ∧ (Cmd.new "x" []).runModel false false true 0 (RunEvent.waitDone WaitResult.ok) =
      (some RunError.startError, Cmd.new "x" []) :=
  ⟨(C9_accessor_guard.1 (Cmd.new "x" []) rfl).1,
    (C9_accessor_guard.2 (Cmd.new "x" []) false true 0
      (RunEvent.waitDone WaitResult.ok)).1⟩

/-- Option functions that do not touch the timeout leave the default
timeout of the constructor in place. -/
theorem foldl_preserves_timeout (opts : List (Cmd → Cmd)) :
    ∀ (c0 : Cmd), (∀ o ∈ opts, ∀ c : Cmd, (o c).timeout = c.timeout) →
      (opts.foldl (fun c o => o c) c0).timeout = c0.timeout := by
  induction opts with
  | nil => intro c0 h; rfl
  | cons o os ih =>
    intro c0 h
    show (os.foldl (fun c o => o c) (o c0)).timeout = c0.timeout
    rw [ih (o c0) (fun x hx c => h x (List.mem_cons_of_mem o hx) c)]
    exact h o (List.mem_cons_self o os) c0

/-- C10 (confirmed): a command built by `New` without a timeout option has
the positive default timeout of exactly one minute (`60 * 10^9`
nanoseconds), so a run whose caller context carries no deadline satisfies
the `timeoutCtx` condition and derives the internal timeout context. -/
theorem C10_default_timeout (s : String) (opts : List (Cmd → Cmd))
    (h : ∀ o ∈ opts, ∀ c : Cmd, (o c).timeout = c.timeout) :
    (Cmd.new s opts).timeout = 60 * 1000000000
    ∧ (0 : Int) < (Cmd.new s opts).timeout
    ∧ timeoutCtxOf (Cmd.new s opts) false = true := by
  have hbase : (Cmd.new s opts).timeout = 60 * 1000000000 :=
    foldl_preserves_timeout opts _ h
  refine ⟨hbase, ?_, ?_⟩
  · rw [hbase]; decide
  · simp [timeoutCtxOf, hbase]

/-- Witness for C10: `New` with no options at all. -/
theorem C10_default_timeout_witness :
    (Cmd.new "x" []).timeout = 60 * 1000000000
    ∧ timeoutCtxOf (Cmd.new "x" []) false = true :=
  ⟨(C10_default_timeout "x" [] (by simp)).1,
    (C10_default_timeout "x" [] (by simp)).2.2⟩

end GC
